import Mathlib

/-!
Shallow embedding of `main.py` of the Challenge_1b repository: a
three-stage document pipeline (heading extraction, section ranking,
subsection extraction) plus its orchestrator.

Modelling conventions:
* PDF parsing (`fitz`) and the embedding model are external collaborators;
  a parsed document is a list of pages carrying span/line/block layout data
  and the page's plain text, and `embed` / cosine similarity are function
  parameters.
* Python floats are modelled by `ℚ` (the spec treats scores as a totally
  ordered range and the threshold constants 1.1, 0.9, 0.7 as exact).
* Python operations that can raise (`max` of an empty list, opening a
  missing file) return `Option`; a caught exception is a `none` consumed
  at the catch site.
* `str.split()` with no separator splits on whitespace runs and drops
  empty pieces; `str.split(sep)` is `String.splitOn`.
-/

/-!
All string manipulation is written with structural recursion over the
character list (rather than the `Substring`-based core functions defined
by well-founded recursion), so that every definition evaluates by kernel
reduction on concrete inputs.
-/

/-- Python `str.strip()`: drop leading and trailing whitespace. -/
def pyStrip (s : String) : String :=
  String.mk (((s.toList.dropWhile Char.isWhitespace).reverse.dropWhile
    Char.isWhitespace).reverse)

/-- Python `str.lower()` (character-wise). -/
def pyLower (s : String) : String :=
  String.mk (s.toList.map Char.toLower)

/-- Python `str.endswith(suffix)`. -/
def pyEndsWith (s suffix : String) : Bool :=
  suffix.toList.isSuffixOf s.toList

/-- `str.split(sep)` for a nonempty separator `c0 :: sepRest`: leftmost
non-overlapping matches, separators removed. -/
def splitOnAuxL (c0 : Char) (sepRest : List Char) :
    List Char → List Char → List (List Char)
  | [], cur => [cur.reverse]
  | c :: rest, cur =>
    if (c0 :: sepRest).isPrefixOf (c :: rest) then
      cur.reverse :: splitOnAuxL c0 sepRest (rest.drop sepRest.length) []
    else splitOnAuxL c0 sepRest rest (c :: cur)
  termination_by l _ => l.length
  decreasing_by
  · have := (List.drop_sublist sepRest.length rest).length_le
    simp only [List.length_cons]
    omega
  · simp only [List.length_cons]; omega

/-- Python `str.split(sep)` with an explicit separator. -/
def pySplitOnStr (s sep : String) : List String :=
  match sep.toList with
  | [] => [s]
  | c0 :: sepRest => (splitOnAuxL c0 sepRest s.toList []).map String.mk

/-- Python `str.split()` (no separator): split on whitespace runs,
dropping empty pieces. -/
def pySplit (s : String) : List String :=
  ((s.toList.splitOnP (fun c => c.isWhitespace)).filter (fun l => !l.isEmpty)).map
    (fun l => String.mk l)

/-- One pass of `re.sub(r'\s+', ' ', ·)`: each maximal whitespace run is
replaced by a single space.  The `Bool` argument records whether the
previous character belonged to a whitespace run. -/
def collapseAux : Bool → List Char → List Char
  | _, [] => []
  | inRun, c :: rest =>
    if c.isWhitespace then
      if inRun then collapseAux true rest
      else ' ' :: collapseAux true rest
    else c :: collapseAux false rest

/-- `re.sub(r'\s+', ' ', s)`. -/
def collapseWs (s : String) : String :=
  String.mk (collapseAux false s.toList)

/-- Python `str.isupper()` (ASCII approximation): at least one upper-case
letter and no lower-case letter. -/
def pyIsUpper (s : String) : Bool :=
  s.toList.any (fun c => c.isUpper) && s.toList.all (fun c => !c.isLower)

/-- Number of occurrences of character `c` in `s` (Python `str.count`). -/
def countChar (s : String) (c : Char) : Nat :=
  (s.toList.filter (fun d => d = c)).length

/-- Python `needle in hay` on strings: contiguous substring test. -/
def strContains (hay needle : String) : Bool :=
  decide (needle.toList <:+: hay.toList)

/-- `os.path.basename` on a POSIX path. -/
def basename (p : String) : String :=
  (pySplitOnStr p "/").getLastD p

/-- The stem of `os.path.splitext(os.path.basename(p))`: the basename with
its last dot-extension removed. -/
def splitextStem (p : String) : String :=
  let b := basename p
  let parts := pySplitOnStr b "."
  if parts.length ≤ 1 then b else String.intercalate "." parts.dropLast

/-- Title normalisation used for deduplication:
`re.sub(r'\s+', ' ', title.lower().strip())`. -/
def normTitle (s : String) : String :=
  collapseWs (pyStrip (pyLower s))

/-- `re.sub(r'[^\w\s]', '', s)`: keep word characters and whitespace. -/
def stripPunct (s : String) : String :=
  String.mk (s.toList.filter (fun c => c.isAlphanum || c = '_' || c.isWhitespace))

/-- Passage-text normalisation of the final dedup stage:
`re.sub(r'[^\w\s]', '', text.lower())` then collapse whitespace and strip. -/
def pyNormalize (t : String) : String :=
  pyStrip (collapseWs (stripPunct (pyLower t)))

/-! ### Parsed-document data model (the `fitz` boundary) -/

/-- One text span, as reported by the layout parser. -/
structure Span where
  text : String
  size : ℚ
  flags : Nat
  deriving Repr, DecidableEq

/-- One text line: a list of spans. -/
structure TLine where
  spans : List Span
  deriving Repr, DecidableEq

/-- One block of `page.get_text("dict")["blocks"]`; image blocks carry no
`"lines"` key, modelled by `none`. -/
structure PBlock where
  lines : Option (List TLine)
  deriving Repr, DecidableEq

/-- One parsed page: its layout blocks and its plain text
(`page.get_text("text")`). -/
structure Page where
  blocks : List PBlock
  rawText : String
  deriving Repr, DecidableEq

/-- A heading/section candidate produced by `extract_headings_and_pages`. -/
structure Section where
  section_title : String
  page_number : Nat
  pdf_path : String
  deriving Repr, DecidableEq

/-- Python `max(l)`: raises on an empty list, hence `Option`. -/
def pyMax : List ℚ → Option ℚ
  | [] => none
  | x :: xs => some (xs.foldl max x)

/-- `np.median`: mean of the middle element(s) of the sorted list
(junk value 0 on the empty list, which `np.median` maps to `nan`). -/
def pyMedian (l : List ℚ) : ℚ :=
  let s := l.insertionSort (· ≤ ·)
  let n := s.length
  if n = 0 then 0
  else if n % 2 = 1 then s.getD (n / 2) 0
  else (s.getD (n / 2 - 1) 0 + s.getD (n / 2) 0) / 2

/-- All positive span font sizes of a page, in reading order. -/
def pageFontSizes (pg : Page) : List ℚ :=
  pg.blocks.flatMap (fun b =>
    match b.lines with
    | none => []
    | some ls => ls.flatMap (fun l => ((l.spans.filter (fun sp => sp.size > 0)).map (fun sp => sp.size))))

/-- `line_text`: the space-joined stripped span texts, stripped. -/
def lineText (l : TLine) : String :=
  pyStrip (String.intercalate " " (l.spans.map (fun sp => pyStrip sp.text)))

/-- `font_sizes`: the positive span font sizes of one line. -/
def lineFontSizes (l : TLine) : List ℚ :=
  (l.spans.filter (fun sp => sp.size > 0)).map (fun sp => sp.size)

/-- `avg_font_size` of one line (the caller guards against an empty list). -/
def lineAvgSize (l : TLine) : ℚ :=
  (lineFontSizes l).sum / ((lineFontSizes l).length : ℚ)

/-- `is_bold`: any span has the bold flag bit set. -/
def lineIsBold (l : TLine) : Bool :=
  l.spans.any (fun sp => sp.flags.land 2 ≠ 0)

/-- The per-line classification step of `extract_headings_and_pages`:
filters (emptiness, word count, punctuation), font statistics, and the
OR-of-signals heading rule.  Returns `none` when the line is skipped. -/
def lineCandidate (pdf : String) (idx : Nat) (median_font max_font : ℚ) (l : TLine) :
    Option Section :=
  let line_text := lineText l
  if line_text.isEmpty then none
  else
    let words := pySplit line_text
    if words.length < 1 || words.length > 20 then none
    else if countChar line_text '.' > 3 || countChar line_text ',' > 5 then none
    else
      let font_sizes := lineFontSizes l
      if font_sizes.isEmpty then none
      else
        let avg_font_size := lineAvgSize l
        let is_bold := lineIsBold l
        let is_upper := pyIsUpper line_text
        if avg_font_size > median_font * (11/10) || is_bold || is_upper ||
            avg_font_size ≥ max_font * (9/10) then
          some ⟨line_text, idx + 1, pdf⟩
        else none

/-- The classification pass over one page's lines. -/
def classifyPage (pdf : String) (idx : Nat) (median_font max_font : ℚ) (pg : Page) :
    List Section :=
  pg.blocks.flatMap (fun b =>
    match b.lines with
    | none => []
    | some ls => ls.filterMap (lineCandidate pdf idx median_font max_font))

/-- The fallback loop over a page's first plain-text lines: emit the first
line that is longer than 10 characters, has at least 2 words, and is not
(ends with a period AND longer than 100 characters); the `break` sits
inside the inner `if`, so a long period-terminated line is skipped and the
scan continues. -/
def fallbackScan (pdf : String) (idx : Nat) : List String → List Section
  | [] => []
  | ln :: rest =>
    let l := pyStrip ln
    if l.length > 10 && (pySplit l).length ≥ 2 then
      if !(pyEndsWith l "." && l.length > 100) then [⟨l, idx + 1, pdf⟩]
      else fallbackScan pdf idx rest
    else fallbackScan pdf idx rest

/-- One iteration of the page loop of `extract_headings_and_pages`,
threading the accumulated `sections` list: skip the page when it has no
positive font size, otherwise run the classification pass and then the
fallback (guarded by "first page or zero candidates with this page
number"). -/
def pageStep (pdf : String) (idx : Nat) (acc : List Section) (pg : Page) :
    Option (List Section) := do
  let page_text := pyStrip pg.rawText
  let sizes := pageFontSizes pg
  if sizes.isEmpty then
    pure acc
  else
    let median_font := pyMedian sizes
    let max_font ← pyMax sizes
    let acc1 := acc ++ classifyPage pdf idx median_font max_font pg
    if idx = 0 ∨ (acc1.filter (fun s => s.page_number = idx + 1)).length = 0 then
      pure (acc1 ++ fallbackScan pdf idx ((pySplitOnStr page_text "\n").take 10))
    else
      pure acc1

/-- The page loop: pages are processed in order with their 0-based index. -/
def extractAux (pdf : String) : Nat → List Section → List Page → Option (List Section)
  | _, acc, [] => some acc
  | idx, acc, pg :: rest => do
    let acc1 ← pageStep pdf idx acc pg
    extractAux pdf (idx + 1) acc1 rest

/-- Deduplication key: (whitespace-collapsed lower-cased title, page). -/
def sectionKey (s : Section) : String × Nat :=
  (normTitle s.section_title, s.page_number)

/-- The dedup loop of `extract_headings_and_pages`: keep a section only if
its key is unseen, preserving order. -/
def dedupAux (seen : List (String × Nat)) : List Section → List Section
  | [] => []
  | s :: rest =>
    let k := sectionKey s
    if k ∈ seen then dedupAux seen rest
    else s :: dedupAux (k :: seen) rest

/-- `unique_sections` of the source. -/
def uniqueSections (l : List Section) : List Section :=
  dedupAux [] l

/-- `extract_headings_and_pages(pdf_path)` over a parsed document:
page loop then key-dedup.  `none` would mean an uncaught exception. -/
def extract_headings_and_pages (pdf : String) (doc : List Page) :
    Option (List Section) :=
  (extractAux pdf 0 [] doc).map uniqueSections

/-! ### Stable descending sort

`list.sort(key=score, reverse=True)` is a stable sort.  A stable
descending sort by score is the unique permutation sorted by the
lexicographic key (score descending, original position ascending), which
we compute by insertion-sorting the index-tagged list. -/

/-- Lexicographic order on index-tagged elements: higher score first,
original position as the tie-break. -/
def keyLe (f : α → ℚ) (x y : ℕ × α) : Prop :=
  f y.2 < f x.2 ∨ (f x.2 = f y.2 ∧ x.1 ≤ y.1)

instance (f : α → ℚ) : DecidableRel (keyLe f) := fun x y => by
  unfold keyLe; infer_instance

instance (f : α → ℚ) : IsTotal (ℕ × α) (keyLe f) := by
  constructor
  intro x y
  rcases lt_trichotomy (f x.2) (f y.2) with h | h | h
  · exact Or.inr (Or.inl h)
  · rcases Nat.le_total x.1 y.1 with h2 | h2
    · exact Or.inl (Or.inr ⟨h, h2⟩)
    · exact Or.inr (Or.inr ⟨h.symm, h2⟩)
  · exact Or.inl (Or.inl h)

instance (f : α → ℚ) : IsTrans (ℕ × α) (keyLe f) := by
  constructor
  intro x y z hxy hyz
  rcases hxy with h1 | ⟨h1, h1i⟩ <;> rcases hyz with h2 | ⟨h2, h2i⟩
  · exact Or.inl (h2.trans h1)
  · exact Or.inl (h2 ▸ h1)
  · exact Or.inl (h1 ▸ h2)
  · exact Or.inr ⟨h1.trans h2, h1i.trans h2i⟩

/-- The index-tagged stable descending sort by `f`. -/
def sortIndexedByDesc (f : α → ℚ) (l : List α) : List (ℕ × α) :=
  l.enum.insertionSort (keyLe f)

/-- Stable descending sort by `f` (Python `sort(key=f, reverse=True)`). -/
def stableSortByDesc (f : α → ℚ) (l : List α) : List α :=
  (sortIndexedByDesc f l).map Prod.snd

/-! ### SectionRanker (`rank_sections`) -/

/-- A ranked section as emitted by `rank_sections`. -/
structure RankedSection where
  document : String
  section_title : String
  importance_rank : Nat
  page_number : Nat
  deriving Repr, DecidableEq

/-- The `ranked` list: every candidate paired with its cosine-similarity
score against the persona+job query.  `embed` and `simFn` are the external
embedding model and similarity function. -/
def scoredSections (embed : String → List ℚ) (simFn : List ℚ → List ℚ → ℚ)
    (sections : List Section) (persona job : String) : List (Section × ℚ) :=
  let query_embedding := embed (persona ++ " " ++ job)
  sections.map (fun s => (s, simFn query_embedding (embed s.section_title)))

/-- The walk over the sorted candidates: keep a candidate only if its
normalized title is unseen and fewer than 5 are kept so far (the
candidates stay index-tagged so that stability is expressible). -/
def keepTop5 (seen : List String) (kept : List (ℕ × (Section × ℚ))) :
    List (ℕ × (Section × ℚ)) → List (ℕ × (Section × ℚ))
  | [] => kept
  | x :: rest =>
    let t := normTitle x.2.1.section_title
    if t ∉ seen ∧ kept.length < 5 then keepTop5 (t :: seen) (kept ++ [x]) rest
    else keepTop5 seen kept rest

/-- The kept candidates of `rank_sections`, index-tagged. -/
def rankKept (embed : String → List ℚ) (simFn : List ℚ → List ℚ → ℚ)
    (sections : List Section) (persona job : String) : List (ℕ × (Section × ℚ)) :=
  keepTop5 [] []
    (sortIndexedByDesc (fun p => p.2) (scoredSections embed simFn sections persona job))

/-- `rank_sections(sections, persona, job)`: score, stable-sort
descending, keep at most 5 distinct normalized titles, assign dense
ranks 1..k. -/
def rank_sections (embed : String → List ℚ) (simFn : List ℚ → List ℚ → ℚ)
    (sections : List Section) (persona job : String) : List RankedSection :=
  (rankKept embed simFn sections persona job).enum.map (fun p =>
    { document := basename p.2.2.1.pdf_path
      section_title := p.2.2.1.section_title
      importance_rank := p.1 + 1
      page_number := p.2.2.1.page_number })

/-! ### SubsectionExtractor (`extract_subsections`) -/

/-- A scored passage candidate (`all_paragraphs` entry). -/
structure Para where
  document : String
  page_number : Nat
  refined_text : String
  similarity_score : ℚ
  deriving Repr, DecidableEq

/-- A final passage: the same record with `similarity_score` dropped. -/
structure FinalPara where
  document : String
  page_number : Nat
  refined_text : String
  deriving Repr, DecidableEq

/-- Dropping the transient score field. -/
def dropScore (p : Para) : FinalPara :=
  ⟨p.document, p.page_number, p.refined_text⟩

/-- The document lookup of `extract_subsections`: walk the documents root
(`os.walk(PDFS_DIR)` listing, each entry a `(root, files)` pair in walk
order) and join the first root whose file list contains the basename. -/
def findPdf (fs : List (String × List String)) (docName : String) : Option String :=
  match fs with
  | [] => none
  | (root, files) :: rest =>
    if docName ∈ files then some (root ++ "/" ++ docName) else findPdf rest docName

/-- Modelled from the spec (§4.3): the lookup as the spec words it,
restricted to the per-request document root `pdfs/<prefix>` instead of the
whole documents tree. -/
def specFindPdfPerRequest (fs : List (String × List String)) (reqStem docName : String) :
    Option String :=
  match fs.find? (fun e => e.1 = "pdfs/" ++ reqStem) with
  | none => none
  | some (root, files) => if docName ∈ files then some (root ++ "/" ++ docName) else none

theorem lengthDropWhile_le (p : α → Bool) (l : List α) :
    (l.dropWhile p).length ≤ l.length :=
  (List.dropWhile_sublist p).length_le

/-- `re.split(r'(?<=[.!?])\s+', ·)` on the character list: break after a
sentence-ending character that is followed by whitespace, consuming the
whitespace run.  `cur` holds the current piece reversed. -/
def sentSplitAux : List Char → List Char → List String
  | [], cur => [String.mk cur.reverse]
  | [c], cur => [String.mk (c :: cur).reverse]
  | c :: d :: rest, cur =>
    if (c = '.' ∨ c = '!' ∨ c = '?') ∧ d.isWhitespace then
      String.mk ((c :: cur).reverse) ::
        sentSplitAux ((d :: rest).dropWhile (fun e => e.isWhitespace)) []
    else sentSplitAux (d :: rest) (c :: cur)
  termination_by l _ => l.length
  decreasing_by
  · have := lengthDropWhile_le (fun e : Char => e.isWhitespace) (d :: rest)
    simp only [List.length_cons] at this ⊢
    omega
  · simp only [List.length_cons]; omega

/-- Sentence splitting of a cleaned paragraph. -/
def sentSplit (s : String) : List String :=
  sentSplitAux s.toList []

/-- The greedy sentence-accumulation loop: take stripped sentences while
nonempty and the running length stays under 500, stopping at the first
sentence that is empty or would reach the limit. -/
def takeSentences (total : Nat) : List String → List String
  | [] => []
  | s :: rest =>
    let t := pyStrip s
    if t ≠ "" ∧ total + t.length < 500 then t :: takeSentences (total + t.length) rest
    else []

/-- Per-paragraph refinement and scoring: discard short paragraphs,
collapse whitespace, split into sentences, greedily accumulate under 500
characters, discard refined text of at most 15 characters, and score the
rest against the query embedding. -/
def processParagraph (embed : String → List ℚ) (simFn : List ℚ → List ℚ → ℚ)
    (query_embedding : List ℚ) (docName : String) (pageNo : Nat) (paragraph : String) :
    Option Para :=
  if (pyStrip paragraph).length < 30 then none
  else
    let cleaned_text := pyStrip (collapseWs paragraph)
    let sentences := sentSplit cleaned_text
    let refined_sentences := takeSentences 0 sentences
    if refined_sentences.isEmpty then none
    else
      let refined_text := pyStrip (String.intercalate " " refined_sentences)
      if refined_text.length > 15 then
        some ⟨docName, pageNo, refined_text, simFn query_embedding (embed refined_text)⟩
      else none

/-- The line-accumulation fallback of the paragraph splitter: accumulate
lines longer than 5 characters, close the buffer on a sentence-ending
line or once the joined buffer exceeds 150 characters, keep closed
paragraphs longer than 30 characters, flush the remainder under the same
check. -/
def accumLoop : List String → List String → List String
  | [], cur =>
    if cur.isEmpty then []
    else
      let para_text := pyStrip (String.intercalate " " cur)
      if para_text.length > 30 then [para_text] else []
  | ln :: rest, cur =>
    if ln.length > 5 then
      let cur2 := cur ++ [ln]
      if pyEndsWith ln "." || pyEndsWith ln "!" || pyEndsWith ln "?" ||
          (String.intercalate " " cur2).length > 150 then
        let para_text := pyStrip (String.intercalate " " cur2)
        (if para_text.length > 30 then [para_text] else []) ++ accumLoop rest []
      else accumLoop rest cur2
    else accumLoop rest cur

/-- The single-newline fallback: non-blank stripped lines fed to the
accumulation loop. -/
def lineAccum (page_text : String) : List String :=
  let lines := (pySplitOnStr page_text "\n").filterMap (fun l =>
    let t := pyStrip l
    if t.isEmpty then none else some t)
  accumLoop lines []

/-- Two-tier paragraph segmentation: blank-line splitting keeping stripped
segments longer than 20 characters; if fewer than 2 result, the
line-accumulation fallback appends to the same list. -/
def paragraphsOfPage (page_text : String) : List String :=
  let paragraphs := (pySplitOnStr page_text "\n\n").filterMap (fun s =>
    let t := pyStrip s
    if t.length > 20 then some t else none)
  if paragraphs.length < 2 then paragraphs ++ lineAccum page_text else paragraphs

/-- All scored passages of one ranked section: locate the document, re-read
the section's page (skipping out-of-range pages), segment and refine.
`docs` maps a path to the page plain texts; `none` models a raised
exception, caught by the per-section handler. -/
def sectionParas (embed : String → List ℚ) (simFn : List ℚ → List ℚ → ℚ)
    (fs : List (String × List String)) (docs : String → Option (List String))
    (query_embedding : List ℚ) (sec : RankedSection) : List Para :=
  match findPdf fs sec.document with
  | none => []
  | some pdf_path =>
    match docs pdf_path with
    | none => []
    | some pages =>
      let page_num : Int := (sec.page_number : Int) - 1
      if page_num < 0 ∨ page_num ≥ (pages.length : Int) then []
      else
        let page_text := pages.getD page_num.toNat ""
        (paragraphsOfPage page_text).filterMap
          (processParagraph embed simFn query_embedding (basename pdf_path)
            (page_num.toNat + 1))

/-- The near-duplicate test of the final dedup loop, exactly as coded:
the whole disjunction is guarded by `len(normalized_text) > 20`. -/
def isNearDup (normalized_text seen_text : String) : Bool :=
  decide (normalized_text.length > 20) &&
    (strContains seen_text normalized_text || strContains normalized_text seen_text ||
      decide (10 * ((pySplit normalized_text).toFinset ∩ (pySplit seen_text).toFinset).card >
        7 * (pySplit normalized_text).length))

/-- The near-duplicate predicate as the spec words it: containment alone
suffices, and the 20-character guard applies only to the token-overlap
branch. -/
def specNearDup (normalized_text seen_text : String) : Bool :=
  strContains seen_text normalized_text || strContains normalized_text seen_text ||
    (decide (10 * ((pySplit normalized_text).toFinset ∩ (pySplit seen_text).toFinset).card >
        7 * (pySplit normalized_text).length) &&
      decide (normalized_text.length > 20))

/-- The final dedup walk over the score-sorted passages: keep a candidate
when it is not a near-duplicate of any seen text and fewer than 5 are
kept; its normalized text joins the seen set. -/
def dedupWalk (seen : List String) (kept : List Para) : List Para → List Para
  | [] => kept
  | para :: rest =>
    let normalized_text := pyNormalize para.refined_text
    let is_duplicate := seen.any (fun s => isNearDup normalized_text s)
    if is_duplicate = false ∧ kept.length < 5 then
      dedupWalk (if normalized_text ∈ seen then seen else normalized_text :: seen)
        (kept ++ [para]) rest
    else dedupWalk seen kept rest

/-- `extract_subsections(ranked_sections, persona, job)`: collect scored
passages over all ranked sections, stable-sort descending by score, dedup
and cap at 5, drop the score. -/
def extract_subsections (embed : String → List ℚ) (simFn : List ℚ → List ℚ → ℚ)
    (fs : List (String × List String)) (docs : String → Option (List String))
    (ranked_sections : List RankedSection) (persona job : String) : List FinalPara :=
  let query_embedding := embed (persona ++ " " ++ job)
  let all_paragraphs := ranked_sections.flatMap
    (sectionParas embed simFn fs docs query_embedding)
  let sorted := stableSortByDesc (fun p => p.similarity_score) all_paragraphs
  (dedupWalk [] [] sorted).map dropScore

/-! ### Orchestrator (`process_round_1b`)

The filesystem is one `World`: the `os.walk("pdfs")` listing (used both
for folder lookup and for the basename search of `extract_subsections`)
and the parser (`fitz.open` plus layout extraction, `none` when opening
raises).  A request file is its path together with the outcome of
`json.load` and the persona/job key extraction of §6, `none` when the
load raises. -/

/-- The filesystem and parser boundary shared by the whole run. -/
structure World where
  walk : List (String × List String)
  parse : String → Option (List Page)

/-- Page plain texts of a document, as `extract_subsections` re-reads them. -/
def docsOf (w : World) (p : String) : Option (List String) :=
  (w.parse p).map (fun pages => pages.map Page.rawText)

/-- One input request file: its path and its parsed persona/job data. -/
structure Request where
  name : String
  data : Option (String × String)

/-- Folder lookup: a folder exists exactly when it is a root of the walk
listing; its files are that entry's file list. -/
def lookupFolder (w : World) (folder : String) : Option (List String) :=
  (w.walk.find? (fun e => e.1 = folder)).map Prod.snd

/-- Per-document heading extraction under the per-document try/except:
a parse failure (or any extraction failure) contributes no sections. -/
def docHeadings (w : World) (pdf_path : String) : List Section :=
  match w.parse pdf_path with
  | none => []
  | some pages =>
    match extract_headings_and_pages pdf_path pages with
    | none => []
    | some l => l

/-- The result object persisted for one request. -/
structure PipelineResult where
  input_documents : List String
  persona : String
  job_to_be_done : String
  processing_timestamp : String
  extracted_sections : List RankedSection
  subsection_analysis : List FinalPara
  deriving Repr, DecidableEq

/-- Processing of one request file inside its try/except: skip (`none`)
when the request is unreadable, its folder is missing, no document files
are found, or no sections are extracted; otherwise run the pipeline and
assemble the result (`now` models `datetime.now().isoformat()`). -/
def process_request (embed : String → List ℚ) (simFn : List ℚ → List ℚ → ℚ)
    (now : String) (w : World) (r : Request) : Option (String × PipelineResult) :=
  match r.data with
  | none => none
  | some d =>
    let persona := d.1
    let job := d.2
    let reqStem := splitextStem r.name
    let pdf_folder := "pdfs/" ++ reqStem
    match lookupFolder w pdf_folder with
    | none => none
    | some entries =>
      let pdf_files := (entries.filter (fun f => pyEndsWith f ".pdf")).map
        (fun f => pdf_folder ++ "/" ++ f)
      if pdf_files.isEmpty then none
      else
        let all_sections := pdf_files.flatMap (docHeadings w)
        if all_sections.isEmpty then none
        else
          let ranked_sections := rank_sections embed simFn all_sections persona job
          let subsections := extract_subsections embed simFn w.walk (docsOf w)
            ranked_sections persona job
          some (reqStem,
            { input_documents := pdf_files.map basename
              persona := persona
              job_to_be_done := job
              processing_timestamp := now
              extracted_sections := ranked_sections
              subsection_analysis := subsections })

/-- `process_round_1b()`: every request file in turn, each inside its own
failure boundary; the output is the list of written result files. -/
def process_round_1b (embed : String → List ℚ) (simFn : List ℚ → List ℚ → ℚ)
    (now : String) (w : World) (requests : List Request) :
    List (String × PipelineResult) :=
  requests.filterMap (process_request embed simFn now w)

/-! ## Theorems -/

/-! ### C2: heading extraction is total -/

theorem pyMax_cons (x : ℚ) (xs : List ℚ) : pyMax (x :: xs) = some (xs.foldl max x) := rfl

theorem pageStep_total (pdf : String) (idx : Nat) (acc : List Section) (pg : Page) :
    (pageStep pdf idx acc pg).isSome = true := by
  unfold pageStep
  rcases h : pageFontSizes pg with _ | ⟨x, xs⟩
  · simp
  · simp only [List.isEmpty_cons, pyMax_cons, Option.some_bind, Option.pure_def,
      Option.bind_eq_bind, Bool.false_eq_true, if_false]
    split <;> simp

theorem extractAux_total (pdf : String) :
    ∀ (doc : List Page) (idx : Nat) (acc : List Section),
      (extractAux pdf idx acc doc).isSome = true := by
  intro doc
  induction doc with
  | nil => intro idx acc; simp [extractAux]
  | cons pg rest ih =>
    intro idx acc
    have h := pageStep_total pdf idx acc pg
    rcases hs : pageStep pdf idx acc pg with _ | acc1
    · rw [hs] at h; simp at h
    · simp [extractAux, hs, ih]

/-- C2: `extract_headings_and_pages` never raises: over any parsed
document it returns an ordered candidate list (the `Option` that models a
raised exception is always `some`). -/
theorem heading_extraction_never_raises (pdf : String) (doc : List Page) :
    (extract_headings_and_pages pdf doc).isSome = true := by
  unfold extract_headings_and_pages
  have h := extractAux_total pdf doc 0 []
  rcases hs : extractAux pdf 0 [] doc with _ | raw
  · rw [hs] at h; simp at h
  · simp

/-! ### C10: a page with no positive font size contributes nothing -/

/-- C10: a page whose spans report no positive font size is skipped
entirely — the accumulated section list is returned unchanged, so neither
the classification pass nor the fallback runs, whatever the page index
(including the first page) and whatever plain text the page carries; the
remaining pages are processed as if the page were absent. -/
theorem no_font_page_contributes_nothing (pdf : String) (idx : Nat)
    (acc : List Section) (pg : Page) (h : pageFontSizes pg = []) :
    pageStep pdf idx acc pg = some acc ∧
    ∀ rest, extractAux pdf idx acc (pg :: rest) = extractAux pdf (idx + 1) acc rest := by
  have hstep : pageStep pdf idx acc pg = some acc := by
    unfold pageStep
    simp [h]
  refine ⟨hstep, fun rest => ?_⟩
  simp [extractAux, hstep]

/-- Witness for C10: a first page with a zero-size span and a qualifying
plain-text line still contributes nothing. -/
theorem no_font_page_contributes_nothing_witness :
    pageFontSizes ⟨[⟨some [⟨[⟨"Hello world heading", 0, 0⟩]⟩]⟩],
        "Hello world heading\nmore text"⟩ = [] ∧
    pageStep "d.pdf" 0 []
      ⟨[⟨some [⟨[⟨"Hello world heading", 0, 0⟩]⟩]⟩],
        "Hello world heading\nmore text"⟩ = some [] := by
  refine ⟨by decide, ?_⟩
  exact (no_font_page_contributes_nothing "d.pdf" 0 []
    ⟨[⟨some [⟨[⟨"Hello world heading", 0, 0⟩]⟩]⟩],
      "Hello world heading\nmore text"⟩ (by decide)).1

/-! ### C6: key-deduplication of the candidate list -/

theorem dedupAux_sublist (seen : List (String × Nat)) (l : List Section) :
    List.Sublist (dedupAux seen l) l := by
  induction l generalizing seen with
  | nil => simp [dedupAux]
  | cons s rest ih =>
    unfold dedupAux
    by_cases h : sectionKey s ∈ seen
    · simp only [h, if_true]
      exact (ih seen).cons s
    · simp only [h, if_false]
      exact (ih (sectionKey s :: seen)).cons₂ s

theorem dedupAux_key_not_seen (seen : List (String × Nat)) (l : List Section) :
    ∀ s ∈ dedupAux seen l, sectionKey s ∉ seen := by
  induction l generalizing seen with
  | nil => simp [dedupAux]
  | cons a rest ih =>
    intro s hs
    unfold dedupAux at hs
    by_cases h : sectionKey a ∈ seen
    · simp only [h, if_true] at hs
      exact ih seen s hs
    · simp only [h, if_false, List.mem_cons] at hs
      rcases hs with rfl | hs
      · exact h
      · have := ih (sectionKey a :: seen) s hs
        intro hmem
        exact this (List.mem_cons_of_mem _ hmem)

theorem dedupAux_keys_nodup (seen : List (String × Nat)) (l : List Section) :
    ((dedupAux seen l).map sectionKey).Nodup := by
  induction l generalizing seen with
  | nil => simp [dedupAux]
  | cons a rest ih =>
    unfold dedupAux
    by_cases h : sectionKey a ∈ seen
    · simp only [h, if_true]
      exact ih seen
    · simp only [h, if_false, List.map_cons, List.nodup_cons]
      refine ⟨?_, ih (sectionKey a :: seen)⟩
      intro hmem
      rcases List.mem_map.mp hmem with ⟨s, hs, hkey⟩
      have := dedupAux_key_not_seen (sectionKey a :: seen) rest s hs
      exact this (hkey ▸ List.mem_cons_self _ _)

theorem dedupAux_covers (seen : List (String × Nat)) (l : List Section) :
    ∀ a ∈ l, sectionKey a ∈ seen ∨ sectionKey a ∈ (dedupAux seen l).map sectionKey := by
  induction l generalizing seen with
  | nil => simp
  | cons b rest ih =>
    intro a ha
    unfold dedupAux
    by_cases h : sectionKey b ∈ seen
    · simp only [h, if_true]
      rcases List.mem_cons.mp ha with rfl | ha
      · exact Or.inl h
      · exact ih seen a ha
    · simp only [h, if_false, List.map_cons]
      rcases List.mem_cons.mp ha with rfl | ha
      · exact Or.inr (List.mem_cons_self _ _)
      · rcases ih (sectionKey b :: seen) a ha with hmem | hmem
        · rcases List.mem_cons.mp hmem with heq | hmem
          · exact Or.inr (heq ▸ List.mem_cons_self _ _)
          · exact Or.inl hmem
        · exact Or.inr (List.mem_cons_of_mem _ hmem)

theorem dedupAux_first_occurrence (seen : List (String × Nat)) (l : List Section) :
    ∀ s ∈ dedupAux seen l,
      l.find? (fun b => decide (sectionKey b = sectionKey s)) = some s := by
  induction l generalizing seen with
  | nil => simp [dedupAux]
  | cons a rest ih =>
    intro s hs
    unfold dedupAux at hs
    by_cases h : sectionKey a ∈ seen
    · simp only [h, if_true] at hs
      have hneq : sectionKey a ≠ sectionKey s := by
        intro heq
        exact dedupAux_key_not_seen seen rest s hs (heq ▸ h)
      rw [List.find?_cons_of_neg _ (by simp [hneq])]
      exact ih seen s hs
    · simp only [h, if_false, List.mem_cons] at hs
      rcases hs with rfl | hs
      · rw [List.find?_cons_of_pos _ (by simp)]
      · have hneq : sectionKey a ≠ sectionKey s := by
          intro heq
          exact dedupAux_key_not_seen (sectionKey a :: seen) rest s hs
            (heq ▸ List.mem_cons_self _ _)
        rw [List.find?_cons_of_neg _ (by simp [hneq])]
        exact ih (sectionKey a :: seen) s hs

/-- C6: the list returned by the heading extractor is the key-dedup of the
raw page-loop output: it is a subsequence of the raw stream, no two kept
candidates share a (normalized title, page) key, every raw candidate's key
is represented, and each kept candidate is the first raw candidate bearing
its key (hence first-seen order). -/
theorem heading_candidates_deduplicated (pdf : String) (doc : List Page)
    (raw : List Section) (h : extractAux pdf 0 [] doc = some raw) :
    extract_headings_and_pages pdf doc = some (uniqueSections raw) ∧
    ((uniqueSections raw).map sectionKey).Nodup ∧
    List.Sublist (uniqueSections raw) raw ∧
    (∀ s ∈ uniqueSections raw,
      raw.find? (fun b => decide (sectionKey b = sectionKey s)) = some s) ∧
    (∀ a ∈ raw, sectionKey a ∈ (uniqueSections raw).map sectionKey) := by
  refine ⟨?_, dedupAux_keys_nodup [] raw, dedupAux_sublist [] raw,
    dedupAux_first_occurrence [] raw, ?_⟩
  · unfold extract_headings_and_pages
    rw [h]
    rfl
  · intro a ha
    rcases dedupAux_covers [] raw a ha with hmem | hmem
    · simp at hmem
    · exact hmem

/-- Witness for C6: a document whose classification pass and fallback both
emit "Chapter 1: Introduction" on page 1 keeps a single copy. -/
theorem heading_candidates_deduplicated_witness :
    extractAux "c.pdf" 0 []
        [⟨[⟨some [⟨[⟨"Chapter 1: Introduction", 12, 2⟩]⟩,
            ⟨[⟨"plain body text here", 10, 0⟩]⟩]⟩],
          "Chapter 1: Introduction\nbody"⟩] =
      some [⟨"Chapter 1: Introduction", 1, "c.pdf"⟩,
        ⟨"Chapter 1: Introduction", 1, "c.pdf"⟩] ∧
    extract_headings_and_pages "c.pdf"
        [⟨[⟨some [⟨[⟨"Chapter 1: Introduction", 12, 2⟩]⟩,
            ⟨[⟨"plain body text here", 10, 0⟩]⟩]⟩],
          "Chapter 1: Introduction\nbody"⟩] =
      some (uniqueSections [⟨"Chapter 1: Introduction", 1, "c.pdf"⟩,
        ⟨"Chapter 1: Introduction", 1, "c.pdf"⟩]) := by
  have h : extractAux "c.pdf" 0 []
      [⟨[⟨some [⟨[⟨"Chapter 1: Introduction", 12, 2⟩]⟩,
          ⟨[⟨"plain body text here", 10, 0⟩]⟩]⟩],
        "Chapter 1: Introduction\nbody"⟩] =
      some [⟨"Chapter 1: Introduction", 1, "c.pdf"⟩,
        ⟨"Chapter 1: Introduction", 1, "c.pdf"⟩] := by
    with_unfolding_all rfl
  exact ⟨h, (heading_candidates_deduplicated "c.pdf" _ _ h).1⟩

/-! ### C4: the classification boundary at 1.1 × median and 0.9 × max -/

/-- C4: for a line passing the word-count and punctuation filters, average
size exactly `1.1 × median` with no bold span, not all-upper-case and
average size below `0.9 × max` is a non-heading (the median signal is a
strict inequality), while average size exactly `0.9 × max` is a heading
(the max signal includes equality). -/
theorem heading_classification_boundary (pdf : String) (idx : Nat)
    (median_font max_font : ℚ) (l : TLine)
    (hne : (lineText l).isEmpty = false)
    (hw1 : 1 ≤ (pySplit (lineText l)).length)
    (hw2 : (pySplit (lineText l)).length ≤ 20)
    (hp : countChar (lineText l) '.' ≤ 3)
    (hc : countChar (lineText l) ',' ≤ 5)
    (hfs : (lineFontSizes l).isEmpty = false) :
    (lineAvgSize l = median_font * (11/10) → lineIsBold l = false →
      pyIsUpper (lineText l) = false → lineAvgSize l < max_font * (9/10) →
      lineCandidate pdf idx median_font max_font l = none) ∧
    (lineAvgSize l = max_font * (9/10) →
      lineCandidate pdf idx median_font max_font l = some ⟨lineText l, idx + 1, pdf⟩) := by
  have hwords : (decide ((pySplit (lineText l)).length < 1) ||
      decide ((pySplit (lineText l)).length > 20)) = false := by
    simp only [Bool.or_eq_false_iff, decide_eq_false_iff_not, not_lt]
    omega
  have hpunc : (decide (countChar (lineText l) '.' > 3) ||
      decide (countChar (lineText l) ',' > 5)) = false := by
    simp only [Bool.or_eq_false_iff, decide_eq_false_iff_not, not_lt]
    omega
  constructor
  · intro havg hbold hupper hmax
    have hcond : (decide (lineAvgSize l > median_font * (11/10)) || lineIsBold l ||
        pyIsUpper (lineText l) || decide (lineAvgSize l ≥ max_font * (9/10))) = false := by
      rw [hbold, hupper, decide_eq_false (by rw [havg]; exact lt_irrefl _),
        decide_eq_false (not_le.mpr hmax)]
      rfl
    simp only [lineCandidate, hne, hwords, hpunc, hfs, hcond, Bool.false_eq_true, if_false]
  · intro havg
    have hcond : (decide (lineAvgSize l > median_font * (11/10)) || lineIsBold l ||
        pyIsUpper (lineText l) || decide (lineAvgSize l ≥ max_font * (9/10))) = true := by
      rw [decide_eq_true (le_of_eq havg.symm)]
      simp
    simp only [lineCandidate, hne, hwords, hpunc, hfs, hcond, Bool.false_eq_true, if_false,
      if_true]

/-- Witness for C4: a two-word lower-case line of average size 11 on a
page with median 10 and max 13 is rejected, and one of average size 9 on
a page with max 10 is accepted. -/
theorem heading_classification_boundary_witness :
    lineCandidate "d.pdf" 0 10 13 ⟨[⟨"hello there", 11, 0⟩]⟩ = none ∧
    lineCandidate "d.pdf" 0 10 10 ⟨[⟨"hello there", 9, 0⟩]⟩ =
      some ⟨"hello there", 1, "d.pdf"⟩ := by
  constructor
  · exact (heading_classification_boundary "d.pdf" 0 10 13 ⟨[⟨"hello there", 11, 0⟩]⟩
      (by decide) (by decide) (by decide) (by decide) (by decide) (by decide)).1
      (by with_unfolding_all rfl) (by decide) (by decide)
      (by norm_num [lineAvgSize, lineFontSizes])
  · have h := (heading_classification_boundary "d.pdf" 0 10 10 ⟨[⟨"hello there", 9, 0⟩]⟩
      (by decide) (by decide) (by decide) (by decide) (by decide) (by decide)).2
      (by with_unfolding_all rfl)
    convert h using 2

/-! ### C9: determinism up to the timestamp -/

/-- Everything persisted for one request except `processing_timestamp`. -/
def dropTimestamp (p : String × PipelineResult) :
    String × List String × String × String × List RankedSection × List FinalPara :=
  (p.1, p.2.input_documents, p.2.persona, p.2.job_to_be_done,
    p.2.extracted_sections, p.2.subsection_analysis)

theorem process_request_deterministic (embed : String → List ℚ)
    (simFn : List ℚ → List ℚ → ℚ) (now₁ now₂ : String) (w : World) (r : Request) :
    (process_request embed simFn now₁ w r).map dropTimestamp =
      (process_request embed simFn now₂ w r).map dropTimestamp := by
  unfold process_request
  rcases r.data with _ | d
  · rfl
  · simp only
    rcases lookupFolder w ("pdfs/" ++ splitextStem r.name) with _ | entries
    · rfl
    · simp only
      split
      · rfl
      · split <;> rfl

/-- C9: with the embedding model held fixed, two runs of the pipeline over
the same filesystem and requests agree on every persisted field —
`extracted_sections`, `subsection_analysis`, and the rest of the metadata —
except `processing_timestamp`. -/
theorem pipeline_deterministic_up_to_timestamp (embed : String → List ℚ)
    (simFn : List ℚ → List ℚ → ℚ) (now₁ now₂ : String) (w : World)
    (requests : List Request) :
    (process_round_1b embed simFn now₁ w requests).map dropTimestamp =
      (process_round_1b embed simFn now₂ w requests).map dropTimestamp := by
  unfold process_round_1b
  induction requests with
  | nil => rfl
  | cons r rest ih =>
    simp only [List.filterMap_cons]
    have h := process_request_deterministic embed simFn now₁ now₂ w r
    rcases h1 : process_request embed simFn now₁ w r with _ | v1 <;>
      rcases h2 : process_request embed simFn now₂ w r with _ | v2 <;>
        rw [h1, h2] at h <;> simp at h <;> simp [ih, h]

/-! ### C8: a request with a missing or empty document folder is skipped -/

/-- C8: when the document folder of a request is missing, or contains no
document files, no output is produced for that request, and the outputs of
the whole run are exactly those of the run without that request. -/
theorem missing_folder_request_skipped (embed : String → List ℚ)
    (simFn : List ℚ → List ℚ → ℚ) (now : String) (w : World) (r : Request)
    (pre post : List Request)
    (h : lookupFolder w ("pdfs/" ++ splitextStem r.name) = none ∨
      ∃ entries, lookupFolder w ("pdfs/" ++ splitextStem r.name) = some entries ∧
        entries.filter (fun f => pyEndsWith f ".pdf") = []) :
    process_request embed simFn now w r = none ∧
    process_round_1b embed simFn now w (pre ++ r :: post) =
      process_round_1b embed simFn now w (pre ++ post) := by
  have hnone : process_request embed simFn now w r = none := by
    unfold process_request
    rcases r.data with _ | d
    · rfl
    · simp only
      rcases h with hmiss | ⟨entries, hsome, hempty⟩
      · rw [hmiss]
      · rw [hsome]
        simp [hempty]
  refine ⟨hnone, ?_⟩
  unfold process_round_1b
  rw [List.filterMap_append, List.filterMap_append, List.filterMap_cons, hnone]

/-- Witness for C8: a run whose only other request is unaffected when a
request with a missing folder is dropped. -/
theorem missing_folder_request_skipped_witness :
    lookupFolder ⟨[("pdfs", [])], fun _ => none⟩ ("pdfs/" ++ splitextStem "input/reqA.json") = none ∧
    process_request (fun _ => []) (fun _ _ => 0) "t"
      ⟨[("pdfs", [])], fun _ => none⟩ ⟨"input/reqA.json", some ("p", "j")⟩ = none ∧
    process_round_1b (fun _ => []) (fun _ _ => 0) "t" ⟨[("pdfs", [])], fun _ => none⟩
        [⟨"input/reqA.json", some ("p", "j")⟩] =
      process_round_1b (fun _ => []) (fun _ _ => 0) "t" ⟨[("pdfs", [])], fun _ => none⟩ [] := by
  have h := missing_folder_request_skipped (fun _ => []) (fun _ _ => 0) "t"
    ⟨[("pdfs", [])], fun _ => none⟩ ⟨"input/reqA.json", some ("p", "j")⟩ [] []
    (Or.inl (by with_unfolding_all rfl))
  exact ⟨by with_unfolding_all rfl, h.1, h.2⟩

/-! ### C7: the fallback emits the first qualifying plain-text line -/

/-- The qualifying test of the fallback: longer than 10 characters, at
least 2 words, and not (ends with a period AND longer than 100
characters). -/
def fallbackQualifies (l : String) : Bool :=
  decide (l.length > 10) && decide ((pySplit l).length ≥ 2) &&
    !(pyEndsWith l "." && decide (l.length > 100))

/-- The first qualifying line among the first 10 stripped plain-text
lines. -/
def fallbackPick (page_text : String) : Option String :=
  (((pySplitOnStr page_text "\n").take 10).map pyStrip).find? fallbackQualifies

theorem fallbackScan_eq_pick (pdf : String) (idx : Nat) (ls : List String) :
    fallbackScan pdf idx ls =
      ((ls.map pyStrip).find? fallbackQualifies).toList.map
        (fun t => (⟨t, idx + 1, pdf⟩ : Section)) := by
  induction ls with
  | nil => rfl
  | cons ln rest ih =>
    unfold fallbackScan
    simp only [List.map_cons, List.find?_cons]
    by_cases h1 : (decide ((pyStrip ln).length > 10) &&
        decide ((pySplit (pyStrip ln)).length ≥ 2)) = true
    · by_cases h2 : (pyEndsWith (pyStrip ln) "." &&
          decide ((pyStrip ln).length > 100)) = true
      · have hq : fallbackQualifies (pyStrip ln) = false := by
          unfold fallbackQualifies
          rw [h1, h2]
          rfl
        rw [h1, hq]
        simp only [h2, Bool.not_true, Bool.false_eq_true, if_false, if_true]
        exact ih
      · have hq : fallbackQualifies (pyStrip ln) = true := by
          unfold fallbackQualifies
          rw [h1, Bool.eq_false_iff.mpr h2]
          rfl
        rw [h1, hq]
        simp only [Bool.eq_false_iff.mpr h2, Bool.not_false, if_true]
        rfl
    · have hq : fallbackQualifies (pyStrip ln) = false := by
        unfold fallbackQualifies
        rw [Bool.eq_false_iff.mpr h1]
        rfl
      rw [Bool.eq_false_iff.mpr h1, hq]
      simp only [Bool.false_eq_true, if_false]
      exact ih

theorem lineCandidate_fields (pdf : String) (idx : Nat) (m M : ℚ) (l : TLine)
    (s : Section) (h : lineCandidate pdf idx m M l = some s) :
    s.page_number = idx + 1 := by
  simp only [lineCandidate] at h
  split at h
  · exact Option.noConfusion h
  split at h
  · exact Option.noConfusion h
  split at h
  · exact Option.noConfusion h
  split at h
  · exact Option.noConfusion h
  split at h
  · injection h with h2
    cases h2
    rfl
  · exact Option.noConfusion h

theorem classifyPage_page_numbers (pdf : String) (idx : Nat) (m M : ℚ) (pg : Page) :
    ∀ s ∈ classifyPage pdf idx m M pg, s.page_number = idx + 1 := by
  intro s hs
  unfold classifyPage at hs
  rcases List.mem_flatMap.mp hs with ⟨b, _, hb⟩
  rcases hbl : b.lines with _ | ls
  · rw [hbl] at hb; simp at hb
  · rw [hbl] at hb
    rcases List.mem_filterMap.mp hb with ⟨tl, _, htl⟩
    exact lineCandidate_fields pdf idx m M tl s htl

/-- C7 (amended): for a page carrying at least one positive span font
size, if the page is the first page or its classification pass produced
no candidate, the page appends its classification candidates followed by
exactly the first line of its first 10 stripped plain-text lines that is
longer than 10 characters, has at least 2 words, and does not both end
with a period and exceed 100 characters — and no later line. -/
theorem fallback_emits_first_qualifying_line (pdf : String) (idx : Nat)
    (acc : List Section) (pg : Page) (m : ℚ)
    (hm : pyMax (pageFontSizes pg) = some m)
    (hacc : ∀ s ∈ acc, s.page_number ≠ idx + 1)
    (hcond : idx = 0 ∨ classifyPage pdf idx (pyMedian (pageFontSizes pg)) m pg = []) :
    pageStep pdf idx acc pg =
      some (acc ++ classifyPage pdf idx (pyMedian (pageFontSizes pg)) m pg ++
        ((fallbackPick (pyStrip pg.rawText)).toList.map
          (fun t => (⟨t, idx + 1, pdf⟩ : Section)))) := by
  have hne : (pageFontSizes pg).isEmpty = false := by
    rcases hsz : pageFontSizes pg with _ | ⟨x, xs⟩
    · rw [hsz] at hm; simp [pyMax] at hm
    · rfl
  have hfilter : ((acc ++ classifyPage pdf idx (pyMedian (pageFontSizes pg)) m pg).filter
      (fun s => decide (s.page_number = idx + 1))) =
      classifyPage pdf idx (pyMedian (pageFontSizes pg)) m pg := by
    rw [List.filter_append]
    have h1 : acc.filter (fun s => decide (s.page_number = idx + 1)) = [] := by
      rw [List.filter_eq_nil_iff]
      intro s hs
      simp [hacc s hs]
    have h2 : (classifyPage pdf idx (pyMedian (pageFontSizes pg)) m pg).filter
        (fun s => decide (s.page_number = idx + 1)) =
        classifyPage pdf idx (pyMedian (pageFontSizes pg)) m pg := by
      rw [List.filter_eq_self]
      intro s hs
      simp [classifyPage_page_numbers pdf idx (pyMedian (pageFontSizes pg)) m pg s hs]
    rw [h1, h2]
    rfl
  have hcond2 : (idx = 0 ∨ ((acc ++ classifyPage pdf idx (pyMedian (pageFontSizes pg)) m pg).filter
      (fun s => decide (s.page_number = idx + 1))).length = 0) := by
    rcases hcond with h0 | hempty
    · exact Or.inl h0
    · refine Or.inr ?_
      rw [hfilter, hempty]
      rfl
  simp only [pageStep, hne, Bool.false_eq_true, if_false, hm, Option.pure_def,
    Option.bind_eq_bind, Option.some_bind]
  rw [if_pos hcond2, fallbackScan_eq_pick]
  unfold fallbackPick
  rfl

/-- Witness for C7 (amended): on a first page with a bold heading span the
page emits its classification candidate and then the first qualifying
plain-text line. -/
theorem fallback_emits_first_qualifying_line_witness :
    pageStep "c.pdf" 0 []
        ⟨[⟨some [⟨[⟨"Chapter 1: Introduction", 12, 2⟩]⟩]⟩],
          "Chapter 1: Introduction\nbody"⟩ =
      some ([] ++ classifyPage "c.pdf" 0
          (pyMedian (pageFontSizes ⟨[⟨some [⟨[⟨"Chapter 1: Introduction", 12, 2⟩]⟩]⟩],
            "Chapter 1: Introduction\nbody"⟩)) 12
          ⟨[⟨some [⟨[⟨"Chapter 1: Introduction", 12, 2⟩]⟩]⟩],
            "Chapter 1: Introduction\nbody"⟩ ++
        ((fallbackPick (pyStrip "Chapter 1: Introduction\nbody")).toList.map
          (fun t => (⟨t, 0 + 1, "c.pdf"⟩ : Section)))) :=
  fallback_emits_first_qualifying_line "c.pdf" 0 []
    ⟨[⟨some [⟨[⟨"Chapter 1: Introduction", 12, 2⟩]⟩]⟩],
      "Chapter 1: Introduction\nbody"⟩ 12
    (by with_unfolding_all rfl) (by simp) (Or.inl rfl)

/-- Counterexample to C7 as stated: a first page whose only span reports
font size 0 carries a qualifying plain-text line, yet the extractor emits
nothing — the fallback never runs on a page with no positive font size. -/
theorem fallback_skipped_on_fontless_first_page :
    extract_headings_and_pages "d.pdf"
        [⟨[⟨some [⟨[⟨"Hello world heading", 0, 0⟩]⟩]⟩],
          "Hello world heading\nmore text"⟩] = some [] ∧
    fallbackPick (pyStrip "Hello world heading\nmore text") =
      some "Hello world heading" := by
  constructor
  · with_unfolding_all rfl
  · with_unfolding_all rfl

/-! ### C3: document lookup is global-first-match; unlocatable sections
are skipped -/

theorem findPdf_eq_first_match (fs : List (String × List String)) (docName : String) :
    findPdf fs docName =
      (fs.find? (fun e => decide (docName ∈ e.2))).map
        (fun e => e.1 ++ "/" ++ docName) := by
  induction fs with
  | nil => rfl
  | cons e rest ih =>
    rcases e with ⟨root, files⟩
    unfold findPdf
    by_cases h : docName ∈ files
    · rw [List.find?_cons_of_pos _ (by simpa using h), if_pos h]
      rfl
    · rw [List.find?_cons_of_neg _ (by simpa using h), if_neg h]
      exact ih

/-- C3 (amended): a ranked section's document is located by basename
match against the files of the walk of the whole documents root — the
first walk entry whose file list contains the basename wins, wherever it
lies, not only the per-request folder — and a section whose basename is
found nowhere is skipped while every other section is still processed. -/
theorem section_lookup_first_match_and_skip (embed : String → List ℚ)
    (simFn : List ℚ → List ℚ → ℚ) (fs : List (String × List String))
    (docs : String → Option (List String)) (pre post : List RankedSection)
    (sec : RankedSection) (persona job : String) :
    (∀ docName, findPdf fs docName =
      (fs.find? (fun e => decide (docName ∈ e.2))).map
        (fun e => e.1 ++ "/" ++ docName)) ∧
    (findPdf fs sec.document = none →
      extract_subsections embed simFn fs docs (pre ++ sec :: post) persona job =
        extract_subsections embed simFn fs docs (pre ++ post) persona job) := by
  refine ⟨fun docName => findPdf_eq_first_match fs docName, fun h => ?_⟩
  unfold extract_subsections
  have hsec : sectionParas embed simFn fs docs (embed (persona ++ " " ++ job)) sec = [] := by
    unfold sectionParas
    rw [h]
  simp only [List.flatMap_append, List.flatMap_cons, hsec, List.nil_append]

/-- Witness for C3 (amended): with a documents root holding no files, a
section for `doc.pdf` is skipped and the run equals the run without it. -/
theorem section_lookup_first_match_and_skip_witness :
    findPdf [("pdfs", [])] "doc.pdf" = none ∧
    extract_subsections (fun _ => []) (fun _ _ => 0) [("pdfs", [])] (fun _ => none)
        ([] ++ (⟨"doc.pdf", "T", 1, 1⟩ : RankedSection) :: []) "p" "j" =
      extract_subsections (fun _ => []) (fun _ _ => 0) [("pdfs", [])] (fun _ => none)
        ([] ++ []) "p" "j" := by
  refine ⟨by with_unfolding_all rfl, ?_⟩
  exact (section_lookup_first_match_and_skip (fun _ => []) (fun _ _ => 0) [("pdfs", [])]
    (fun _ => none) [] [] ⟨"doc.pdf", "T", 1, 1⟩ "p" "j").2 (by with_unfolding_all rfl)

/-- Counterexample to C3 as stated: request `reqA`'s section for
`doc.pdf` is not under the per-request root `pdfs/reqA` — the spec-worded
per-request lookup fails — yet the code's walk of the whole documents
root finds `pdfs/reqB/doc.pdf` and the section is processed rather than
skipped. -/
theorem lookup_escapes_request_root :
    specFindPdfPerRequest [("pdfs", []), ("pdfs/reqA", []), ("pdfs/reqB", ["doc.pdf"])]
        "reqA" "doc.pdf" = none ∧
    findPdf [("pdfs", []), ("pdfs/reqA", []), ("pdfs/reqB", ["doc.pdf"])] "doc.pdf" =
      some "pdfs/reqB/doc.pdf" ∧
    extract_subsections (fun _ => []) (fun _ _ => 0)
        [("pdfs", []), ("pdfs/reqA", []), ("pdfs/reqB", ["doc.pdf"])]
        (fun p => if p = "pdfs/reqB/doc.pdf" then
          some ["This is a sufficiently long paragraph for the test."] else none)
        [⟨"doc.pdf", "T", 1, 1⟩] "p" "j" =
      [⟨"doc.pdf", 1, "This is a sufficiently long paragraph for the test."⟩] := by
  refine ⟨by with_unfolding_all rfl, by with_unfolding_all rfl, ?_⟩
  with_unfolding_all rfl

/-! ### C1: the final passage selection -/

theorem dedupWalk_invariant (rest : List Para) :
    ∀ (seen : List String) (kept : List Para),
      kept.length ≤ 5 →
      (∀ p ∈ kept, pyNormalize p.refined_text ∈ seen) →
      kept.Pairwise (fun a b =>
        isNearDup (pyNormalize b.refined_text) (pyNormalize a.refined_text) = false) →
      (dedupWalk seen kept rest).length ≤ 5 ∧
      (dedupWalk seen kept rest).Pairwise (fun a b =>
        isNearDup (pyNormalize b.refined_text) (pyNormalize a.refined_text) = false) := by
  induction rest with
  | nil =>
    intro seen kept hlen _ hpw
    exact ⟨hlen, hpw⟩
  | cons para rest ih =>
    intro seen kept hlen hseen hpw
    unfold dedupWalk
    by_cases hc : (seen.any (fun s =>
        isNearDup (pyNormalize para.refined_text) s)) = false ∧ kept.length < 5
    · rw [if_pos hc]
      apply ih
      · simp only [List.length_append, List.length_cons, List.length_nil]
        omega
      · intro p hp
        rcases List.mem_append.mp hp with hp | hp
        · have := hseen p hp
          split
          · exact this
          · exact List.mem_cons_of_mem _ this
        · simp only [List.mem_singleton] at hp
          subst hp
          split
          · assumption
          · exact List.mem_cons_self _ _
      · rw [List.pairwise_append]
        refine ⟨hpw, by simp, ?_⟩
        intro a ha b hb
        simp only [List.mem_singleton] at hb
        subst hb
        have hany := List.any_eq_false.mp hc.1
        simpa using hany (pyNormalize a.refined_text) (hseen a ha)
    · rw [if_neg hc]
      exact ih seen kept hlen hseen hpw

/-- C1 (amended): a candidate is treated as a near-duplicate exactly when
its normalized text is longer than 20 characters AND (either normalized
string contains the other, or the token-set overlap exceeds 70% of the
candidate's token count) — the 20-character guard covers the whole
disjunction; consequently at most 5 passages are returned and no later
kept passage stands in this near-duplicate relation to any earlier kept
one. -/
theorem final_passages_bounded_and_nondup (embed : String → List ℚ)
    (simFn : List ℚ → List ℚ → ℚ) (fs : List (String × List String))
    (docs : String → Option (List String)) (ranked : List RankedSection)
    (persona job : String) :
    (extract_subsections embed simFn fs docs ranked persona job).length ≤ 5 ∧
    (extract_subsections embed simFn fs docs ranked persona job).Pairwise
      (fun a b =>
        isNearDup (pyNormalize b.refined_text) (pyNormalize a.refined_text) = false) := by
  unfold extract_subsections
  have h := dedupWalk_invariant
    (stableSortByDesc (fun p => p.similarity_score)
      (ranked.flatMap (sectionParas embed simFn fs docs (embed (persona ++ " " ++ job)))))
    [] [] (by simp) (by simp) (by simp)
  constructor
  · simpa using h.1
  · rw [List.pairwise_map]
    exact h.2

/-- Counterexample to C1 as stated: two passages whose identical
normalized text is only 15 characters long are both kept — containment
alone does not make the code treat the second as a near-duplicate,
because the whole disjunction sits under the 20-character guard — yet the
spec-worded predicate (containment regardless of length) holds between
the two returned passages. -/
theorem short_containment_not_deduplicated :
    dedupWalk [] [] (stableSortByDesc (fun p => p.similarity_score)
        [⟨"d.pdf", 1, "Short, text! here", 0⟩, ⟨"d.pdf", 1, "Short, text! here", 0⟩]) =
      [⟨"d.pdf", 1, "Short, text! here", 0⟩, ⟨"d.pdf", 1, "Short, text! here", 0⟩] ∧
    specNearDup (pyNormalize "Short, text! here") (pyNormalize "Short, text! here") = true ∧
    isNearDup (pyNormalize "Short, text! here") (pyNormalize "Short, text! here") = false := by
  refine ⟨?_, by with_unfolding_all rfl, by with_unfolding_all rfl⟩
  with_unfolding_all rfl

/-! ### C5: ranking keeps at most 5 sections, densely ranked, stably
sorted, with distinct normalized titles -/

theorem keepTop5_shape (rest : List (ℕ × (Section × ℚ))) :
    ∀ (seen : List String) (kept : List (ℕ × (Section × ℚ))),
      ∃ sub, keepTop5 seen kept rest = kept ++ sub ∧ List.Sublist sub rest := by
  induction rest with
  | nil =>
    intro seen kept
    exact ⟨[], by simp [keepTop5], List.nil_sublist _⟩
  | cons x rest ih =>
    intro seen kept
    unfold keepTop5
    by_cases hc : normTitle x.2.1.section_title ∉ seen ∧ kept.length < 5
    · rw [if_pos hc]
      rcases ih (normTitle x.2.1.section_title :: seen) (kept ++ [x]) with ⟨sub, heq, hsub⟩
      refine ⟨x :: sub, ?_, hsub.cons₂ x⟩
      rw [heq, List.append_assoc]
      rfl
    · rw [if_neg hc]
      rcases ih seen kept with ⟨sub, heq, hsub⟩
      exact ⟨sub, heq, hsub.cons x⟩

theorem keepTop5_le_five (rest : List (ℕ × (Section × ℚ))) :
    ∀ seen kept, kept.length ≤ 5 → (keepTop5 seen kept rest).length ≤ 5 := by
  induction rest with
  | nil =>
    intro seen kept h
    simpa [keepTop5] using h
  | cons x rest ih =>
    intro seen kept h
    unfold keepTop5
    by_cases hc : normTitle x.2.1.section_title ∉ seen ∧ kept.length < 5
    · rw [if_pos hc]
      apply ih
      simp only [List.length_append, List.length_cons, List.length_nil]
      omega
    · rw [if_neg hc]
      exact ih seen kept h

theorem keepTop5_titles_distinct (rest : List (ℕ × (Section × ℚ))) :
    ∀ seen kept,
      (∀ x ∈ kept, normTitle x.2.1.section_title ∈ seen) →
      kept.Pairwise (fun x y =>
        normTitle x.2.1.section_title ≠ normTitle y.2.1.section_title) →
      (keepTop5 seen kept rest).Pairwise (fun x y =>
        normTitle x.2.1.section_title ≠ normTitle y.2.1.section_title) := by
  induction rest with
  | nil =>
    intro seen kept _ hpw
    simpa [keepTop5] using hpw
  | cons x rest ih =>
    intro seen kept hseen hpw
    unfold keepTop5
    by_cases hc : normTitle x.2.1.section_title ∉ seen ∧ kept.length < 5
    · rw [if_pos hc]
      apply ih
      · intro y hy
        rcases List.mem_append.mp hy with hy | hy
        · exact List.mem_cons_of_mem _ (hseen y hy)
        · simp only [List.mem_singleton] at hy
          subst hy
          exact List.mem_cons_self _ _
      · rw [List.pairwise_append]
        refine ⟨hpw, by simp, ?_⟩
        intro a ha b hb
        simp only [List.mem_singleton] at hb
        subst hb
        intro heq
        exact hc.1 (heq ▸ hseen a ha)
    · rw [if_neg hc]
      exact ih seen kept hseen hpw

theorem enumFrom_pairwise {R : α → α → Prop} :
    ∀ (l : List α) (n : Nat), l.Pairwise R →
      (l.enumFrom n).Pairwise (fun x y => R x.2 y.2) := by
  intro l
  induction l with
  | nil => intro n _; simp
  | cons a l ih =>
    intro n h
    rcases List.pairwise_cons.mp h with ⟨ha, hl⟩
    rw [List.enumFrom_cons]
    refine List.pairwise_cons.mpr ⟨?_, ih (n + 1) hl⟩
    intro y hy
    have hmem : y.2 ∈ l := by
      have := List.mem_map_of_mem Prod.snd hy
      rwa [List.enumFrom_map_snd] at this
    exact ha y.2 hmem

/-- C5: `rank_sections` returns at most 5 sections; their importance
ranks form the dense sequence 1..k in output order; the output is the
positional image of the kept index-tagged candidates `rankKept`, each of
which sits at its original position in the scored candidate list and
carries the cosine-similarity score of its own title against the
persona+job query; the kept candidates descend strictly in the
(score, original position) lexicographic key — scores non-increasing,
equal scores tie-broken by original candidate order, the stable sort — and
no two kept candidates share a normalized title. -/
theorem rank_sections_top5_properties (embed : String → List ℚ)
    (simFn : List ℚ → List ℚ → ℚ) (sections : List Section) (persona job : String) :
    (rank_sections embed simFn sections persona job).length ≤ 5 ∧
    (rank_sections embed simFn sections persona job).map (fun r => r.importance_rank) =
      List.range' 1 (rank_sections embed simFn sections persona job).length ∧
    rank_sections embed simFn sections persona job =
      (rankKept embed simFn sections persona job).enum.map (fun p =>
        { document := basename p.2.2.1.pdf_path
          section_title := p.2.2.1.section_title
          importance_rank := p.1 + 1
          page_number := p.2.2.1.page_number }) ∧
    (∀ x ∈ rankKept embed simFn sections persona job,
      (scoredSections embed simFn sections persona job)[x.1]? = some x.2 ∧
      x.2.2 = simFn (embed (persona ++ " " ++ job)) (embed x.2.1.section_title)) ∧
    (rankKept embed simFn sections persona job).Pairwise (fun x y =>
      y.2.2 < x.2.2 ∨ (x.2.2 = y.2.2 ∧ x.1 < y.1)) ∧
    (rankKept embed simFn sections persona job).Pairwise (fun x y =>
      normTitle x.2.1.section_title ≠ normTitle y.2.1.section_title) := by
  have hperm : (sortIndexedByDesc (fun p => p.2)
      (scoredSections embed simFn sections persona job)).Perm
      (scoredSections embed simFn sections persona job).enum :=
    List.perm_insertionSort _ _
  have hsort : (sortIndexedByDesc (fun p => p.2)
      (scoredSections embed simFn sections persona job)).Pairwise
      (keyLe (fun p => p.2)) :=
    List.sorted_insertionSort _ _
  rcases keepTop5_shape (sortIndexedByDesc (fun p => p.2)
      (scoredSections embed simFn sections persona job)) [] [] with ⟨sub, heq, hsub⟩
  have hkept : rankKept embed simFn sections persona job = sub := by
    unfold rankKept
    rw [heq]
    rfl
  have hksub : List.Sublist (rankKept embed simFn sections persona job)
      (sortIndexedByDesc (fun p => p.2)
        (scoredSections embed simFn sections persona job)) := by
    rw [hkept]
    exact hsub
  have hlen5 : (rankKept embed simFn sections persona job).length ≤ 5 := by
    unfold rankKept
    exact keepTop5_le_five _ [] [] (by simp)
  have hout_len : (rank_sections embed simFn sections persona job).length =
      (rankKept embed simFn sections persona job).length := by
    unfold rank_sections
    simp
  refine ⟨?_, ?_, rfl, ?_, ?_, ?_⟩
  · rw [hout_len]
    exact hlen5
  · rw [hout_len]
    unfold rank_sections
    rw [List.map_map]
    have hcomp : ((fun r : RankedSection => r.importance_rank) ∘ (fun p : ℕ × (ℕ × (Section × ℚ)) =>
        ({ document := basename p.2.2.1.pdf_path
           section_title := p.2.2.1.section_title
           importance_rank := p.1 + 1
           page_number := p.2.2.1.page_number } : RankedSection))) =
        (fun i => i + 1) ∘ Prod.fst := rfl
    rw [hcomp, ← List.map_map, List.enum_map_fst, List.range'_eq_map_range]
    apply List.map_congr_left
    intro i _
    omega
  · intro x hx
    have hx_si : x ∈ sortIndexedByDesc (fun p => p.2)
        (scoredSections embed simFn sections persona job) :=
      hksub.subset hx
    have hx_enum : x ∈ (scoredSections embed simFn sections persona job).enum :=
      hperm.mem_iff.mp hx_si
    refine ⟨List.mem_enum_iff_getElem?.mp hx_enum, ?_⟩
    have hx_scored : x.2 ∈ scoredSections embed simFn sections persona job := by
      have := List.mem_map_of_mem Prod.snd hx_enum
      rwa [List.enum_map_snd] at this
    simp only [scoredSections, List.mem_map] at hx_scored
    rcases hx_scored with ⟨s, _, hgs⟩
    rw [← hgs]
  · have hkpw : (rankKept embed simFn sections persona job).Pairwise
        (keyLe (fun p => p.2)) :=
      List.Pairwise.sublist hksub hsort
    have hnodup_si : ((sortIndexedByDesc (fun p => p.2)
        (scoredSections embed simFn sections persona job)).map Prod.fst).Nodup := by
      refine ((hperm.map Prod.fst).nodup_iff).mpr ?_
      rw [List.enum_map_fst]
      exact List.nodup_range _
    have hnodup_kept : ((rankKept embed simFn sections persona job).map Prod.fst).Nodup :=
      List.Nodup.sublist (hksub.map Prod.fst) hnodup_si
    have hne_pw : (rankKept embed simFn sections persona job).Pairwise
        (fun x y => x.1 ≠ y.1) :=
      List.pairwise_map.mp hnodup_kept
    refine (hkpw.and hne_pw).imp ?_
    intro a b hab
    rcases hab with ⟨hk | ⟨heqq, hle⟩, hne⟩
    · exact Or.inl hk
    · exact Or.inr ⟨heqq, lt_of_le_of_ne hle hne⟩
  · have := keepTop5_titles_distinct (sortIndexedByDesc (fun p => p.2)
      (scoredSections embed simFn sections persona job)) [] [] (by simp) (by simp)
    unfold rankKept
    exact this

/-- Witness for C5: with one candidate, the kept entry sits at original
position 0 of the scored list and the returned ranking is that single
section with rank 1. -/
theorem rank_sections_top5_properties_witness :
    (scoredSections (fun _ => []) (fun _ _ => 0)
        [⟨"T", 1, "pdfs/c/doc.pdf"⟩] "p" "j")[(0 : ℕ)]? =
      some (⟨"T", 1, "pdfs/c/doc.pdf"⟩, 0) ∧
    rank_sections (fun _ => []) (fun _ _ => 0)
        [⟨"T", 1, "pdfs/c/doc.pdf"⟩] "p" "j" = [⟨"doc.pdf", "T", 1, 1⟩] := by
  have hk : rankKept (fun _ => []) (fun _ _ => 0)
      [⟨"T", 1, "pdfs/c/doc.pdf"⟩] "p" "j" =
      [(0, (⟨"T", 1, "pdfs/c/doc.pdf"⟩, (0 : ℚ)))] := by
    with_unfolding_all rfl
  have hmem : ((0 : ℕ), ((⟨"T", 1, "pdfs/c/doc.pdf"⟩ : Section), (0 : ℚ))) ∈
      rankKept (fun _ => []) (fun _ _ => 0) [⟨"T", 1, "pdfs/c/doc.pdf"⟩] "p" "j" := by
    rw [hk]
    exact List.mem_singleton_self _
  refine ⟨((rank_sections_top5_properties (fun _ => []) (fun _ _ => 0)
    [⟨"T", 1, "pdfs/c/doc.pdf"⟩] "p" "j").2.2.2.1 _ hmem).1, ?_⟩
  with_unfolding_all rfl
